import Mathlib

/-!
Shallow embedding of the streaming core of the `rust-genai` repository:
the `WebStream` byte framer (`src/webc/web_stream.rs`) with its two
framing strategies (delimiter and pretty-JSON-array), and the stream
normalizers (`src/adapter/adapters/gemini/streamer.rs`,
`src/adapter/adapters/llamacpp/streamer.rs`).

Modelling conventions:
- Rust `String`/`&str` buffers handled by the framer are modelled as
  `List Char`; the normalizer payload texts are Lean `String`s.
- `str::trim` (Unicode whitespace) is modelled on the ASCII range; all
  inputs in this development are ASCII.
- `serde_json::from_str::<serde_json::Value>(..).is_ok()` is modelled by
  `jsonValid`, a JSON-grammar recognizer (numeric range errors for
  astronomically large literals are not modelled).
- Loops are modelled with an explicit fuel argument that is always
  called with more fuel than the loop can consume (each iteration
  consumes at least one character).
-/

/-! ## Character helpers -/

/-- The open-brace character (written via its code point). -/
def lbrace : Char := Char.ofNat 123

/-- The close-brace character (written via its code point). -/
def rbrace : Char := Char.ofNat 125

/-- Rust whitespace test (`char::is_whitespace`), restricted to the ASCII range
(space, tab, line feed, vertical tab, form feed, carriage return). -/
def rustWs (c : Char) : Bool :=
  c = ' ' || c = '\t' || c = '\n' || c = Char.ofNat 11 || c = Char.ofNat 12 || c = '\r'

/-- Rust trim-start on ASCII input. -/
def trimStart (cs : List Char) : List Char := cs.dropWhile rustWs

/-- Rust trim on ASCII input: drop whitespace from both ends. -/
def strTrim (cs : List Char) : List Char :=
  ((cs.dropWhile rustWs).reverse.dropWhile rustWs).reverse

/-- Test whether the first list is an initial segment of the second
(the pattern test performed by Rust string splitting). -/
def leadsWith : List Char → List Char → Bool
  | [], _ => true
  | _ :: _, [] => false
  | a :: as, b :: bs => a = b && leadsWith as bs

/-- Rust string split on a separator pattern, fuel-driven.  Splits on each
non-overlapping occurrence of `sep`, left to right, keeping empty segments.
Fuel is always supplied as `length + 1`, which the loop cannot exhaust since
every step consumes at least one character. -/
def splitAuxF (sep : List Char) : Nat → List Char → List Char → List (List Char)
  | 0, cs, acc => [acc.reverse ++ cs]
  | f + 1, cs, acc =>
    match cs with
    | [] => [acc.reverse]
    | c :: rest =>
      if leadsWith sep (c :: rest) && !sep.isEmpty then
        acc.reverse :: splitAuxF sep f (rest.drop (sep.length - 1)) []
      else
        splitAuxF sep f rest (c :: acc)

/-- Rust split of `cs` on the separator `sep` (as used by
`process_buff_string_delimited` via `buff_string.split(delimiter)`). -/
def splitOnSep (sep cs : List Char) : List (List Char) :=
  splitAuxF sep (cs.length + 1) cs []

/-! ## Delimiter-mode framing (`process_buff_string_delimited`) -/

/-- Mirror of `struct BuffResponse` in `web_stream.rs`. -/
structure BuffResponse where
  first_message : Option (List Char)
  next_messages : Option (List (List Char))
  candidate_message : Option (List Char)
deriving DecidableEq

/-- The `for part in parts` loop body of `process_buff_string_delimited`.
State threaded exactly as in the source: the retained fragment `pmsg`
(`partial_message`, taken at most once), `first`/`next` accumulators and the
current `candidate_message`.  Note the source's `if let Some(c) =
candidate_message.take()` branch does not touch `part` at all: the part that
closes a candidate is dropped. -/
def delimLoop (pmsg first : Option (List Char)) (next : List (List Char))
    (cand : Option (List Char)) : List (List Char) → BuffResponse × Option (List Char)
  | [] => (⟨first, if next.isEmpty then none else some next, cand⟩, pmsg)
  | part :: rest =>
    match cand with
    | some c =>
      if c.isEmpty then
        delimLoop pmsg first next none rest
      else
        match first with
        | none => delimLoop pmsg (some c) next none rest
        | some f => delimLoop pmsg (some f) (next ++ [c]) none rest
    | none =>
      match pmsg with
      | some p => delimLoop none first next (some (p ++ part)) rest
      | none => delimLoop none first next (some part) rest

/-- Mirror of `process_buff_string_delimited` (`web_stream.rs`): split the
buffer on the delimiter and run the candidate loop.  Returns the
`BuffResponse` together with the `partial_message` slot as the function
leaves it. -/
def processBuffStringDelimited (buff : List Char) (pmsg : Option (List Char))
    (delim : List Char) : BuffResponse × Option (List Char) :=
  delimLoop pmsg none [] none (splitOnSep delim buff)

/-- The messages a `BuffResponse` makes `WebStream::poll_next` emit, in
order: `first_message` now, then the queued `next_messages`. -/
def brMessages (br : BuffResponse) : List (List Char) :=
  (match br.first_message with
   | some f => [f]
   | none => []) ++ br.next_messages.getD []

/-- One delivery processed in delimiter mode by `WebStream::poll_next`:
process the buffer, queue the extra messages, and install the returned
`candidate_message` (when present) as the new `partial_message`. -/
def delimStep (delim : List Char) (pmsg : Option (List Char)) (buff : List Char) :
    List (List Char) × Option (List Char) :=
  let r := processBuffStringDelimited buff pmsg delim
  (brMessages r.1,
   match r.1.candidate_message with
   | some c => some c
   | none => r.2)

/-- Full run of `WebStream` in delimiter mode over a scripted delivery
sequence, starting from retained fragment `pmsg`: emit each delivery's
messages in order, and at transport close (`Poll::Ready(None)`) flush a
non-empty retained fragment as a final message. -/
def delimRunFrom (delim : List Char) (pmsg : Option (List Char)) :
    List (List Char) → List (List Char)
  | [] =>
    match pmsg with
    | some p => if p.isEmpty then [] else [p]
    | none => []
  | d :: ds =>
    let s := delimStep delim pmsg d
    s.1 ++ delimRunFrom delim s.2 ds

/-- Full delimiter-mode run from the initial state (`partial_message = None`). -/
def delimRun (delim : List Char) (ds : List (List Char)) : List (List Char) :=
  delimRunFrom delim none ds

/-- Claim C2: with separator a line feed, deliveries consisting of the five
characters a b LF c and the two characters d LF, then transport close, are
claimed to yield exactly the two messages ab then cd.  The embedded code
instead yields ab then d: the segment c is dropped by the if/else in the
candidate loop (the part that closes a candidate is never kept), so cd is
never assembled. -/
theorem c2_delimiter_example_fails :
    delimRun ['\n'] ["ab\nc".toList, "d\n".toList] = ["ab".toList, "d".toList] ∧
    delimRun ['\n'] ["ab\nc".toList, "d\n".toList] ≠ ["ab".toList, "cd".toList] := by
  constructor
  · rfl
  · decide

/-- Claim C1: chunk-boundary invariance fails for the delimiter strategy.
The same byte stream a b LF c d LF, delivered whole, yields only the message
ab (the segment cd is dropped by the candidate loop), while the same bytes
delivered as two chunks split after the first LF yield ab then cd. -/
theorem c1_chunking_dependence :
    "ab\ncd\n".toList = "ab\n".toList ++ "cd\n".toList ∧
    delimRun ['\n'] ["ab\ncd\n".toList] = ["ab".toList] ∧
    delimRun ['\n'] ["ab\n".toList, "cd\n".toList] = ["ab".toList, "cd".toList] ∧
    delimRun ['\n'] ["ab\ncd\n".toList] ≠ delimRun ['\n'] ["ab\n".toList, "cd\n".toList] := by
  refine ⟨rfl, rfl, rfl, ?_⟩
  decide

/-! ## JSON recognizer (model of `serde_json::from_str::<Value>(..).is_ok()`) -/

/-- JSON whitespace (space, tab, line feed, carriage return). -/
def jsonWs (c : Char) : Bool := c = ' ' || c = '\t' || c = '\n' || c = '\r'

/-- Skip JSON whitespace. -/
def skipWs (cs : List Char) : List Char := cs.dropWhile jsonWs

/-- Hexadecimal digit test (for JSON unicode escapes). -/
def hexDigit (c : Char) : Bool :=
  c.isDigit || ('a' ≤ c && c ≤ 'f') || ('A' ≤ c && c ≤ 'F')

/-- Parse the remainder of a JSON string, the opening quote already
consumed; returns the input after the closing quote.  Raw control
characters are rejected, escapes follow the JSON grammar. -/
def parseStringRest : List Char → Option (List Char)
  | [] => none
  | c :: rest =>
    if c = '"' then some rest
    else if c = '\\' then
      match rest with
      | [] => none
      | e :: rest2 =>
        if e = '"' || e = '\\' || e = '/' || e = 'b' || e = 'f' || e = 'n' || e = 'r' || e = 't' then
          parseStringRest rest2
        else if e = 'u' then
          match rest2 with
          | h1 :: h2 :: h3 :: h4 :: rest3 =>
            if hexDigit h1 && hexDigit h2 && hexDigit h3 && hexDigit h4 then
              parseStringRest rest3
            else none
          | _ => none
        else none
    else if c.toNat < 32 then none
    else parseStringRest rest

/-- Drop a run of decimal digits. -/
def dropDigits (cs : List Char) : List Char := cs.dropWhile Char.isDigit

/-- Parse an optional JSON exponent part. -/
def numExp (cs : List Char) : Option (List Char) :=
  match cs with
  | [] => some cs
  | c :: r =>
    if c = 'e' || c = 'E' then
      let r2 := match r with
        | s :: r3 => if s = '+' || s = '-' then r3 else r
        | [] => r
      match r2 with
      | d :: _ => if d.isDigit then some (dropDigits r2) else none
      | [] => none
    else some cs

/-- Parse an optional JSON fraction part, then the exponent. -/
def numFrac (cs : List Char) : Option (List Char) :=
  match cs with
  | '.' :: r =>
    match r with
    | d :: _ => if d.isDigit then numExp (dropDigits r) else none
    | [] => none
  | _ => numExp cs

/-- Parse a JSON number (integer part, fraction, exponent). -/
def parseNumber (cs : List Char) : Option (List Char) :=
  let cs1 := match cs with
    | c :: r => if c = '-' then r else cs
    | [] => cs
  match cs1 with
  | [] => none
  | c :: r =>
    if c = '0' then numFrac r
    else if c.isDigit then numFrac (dropDigits r)
    else none

/-- Parsing mode for the fuel-driven JSON recognizer: a value, the member
list of an object (after its first key is known to start), or the element
list of an array. -/
inductive PMode where
  | value
  | members
  | elements
deriving DecidableEq

/-- Fuel-driven JSON recognizer.  `pjson f PMode.value cs` consumes one JSON
value from `cs` (no leading whitespace) and returns the rest.  Fuel is
always supplied at `length + 1`, more than the recursion can consume. -/
def pjson : Nat → PMode → List Char → Option (List Char)
  | 0, _, _ => none
  | f + 1, PMode.value, cs =>
    match cs with
    | [] => none
    | c :: rest =>
      if c = lbrace then
        match skipWs rest with
        | d :: r2 => if d = rbrace then some r2 else pjson f PMode.members (d :: r2)
        | [] => none
      else if c = '[' then
        match skipWs rest with
        | d :: r2 => if d = ']' then some r2 else pjson f PMode.elements (d :: r2)
        | [] => none
      else if c = '"' then parseStringRest rest
      else if c = 't' then
        match rest with
        | 'r' :: 'u' :: 'e' :: r => some r
        | _ => none
      else if c = 'f' then
        match rest with
        | 'a' :: 'l' :: 's' :: 'e' :: r => some r
        | _ => none
      else if c = 'n' then
        match rest with
        | 'u' :: 'l' :: 'l' :: r => some r
        | _ => none
      else parseNumber (c :: rest)
  | f + 1, PMode.members, cs =>
    match cs with
    | [] => none
    | c :: rest =>
      if c = '"' then
        match parseStringRest rest with
        | some r1 =>
          match skipWs r1 with
          | ':' :: r2 =>
            match pjson f PMode.value (skipWs r2) with
            | some r3 =>
              match skipWs r3 with
              | d :: r4 =>
                if d = ',' then pjson f PMode.members (skipWs r4)
                else if d = rbrace then some r4
                else none
              | [] => none
            | none => none
          | _ => none
        | none => none
      else none
  | f + 1, PMode.elements, cs =>
    match pjson f PMode.value cs with
    | some r1 =>
      match skipWs r1 with
      | d :: r2 =>
        if d = ',' then pjson f PMode.elements (skipWs r2)
        else if d = ']' then some r2
        else none
      | [] => none
    | none => none

/-- Model of `serde_json::from_str::<serde_json::Value>(s).is_ok()`: one
complete JSON value, surrounded only by whitespace. -/
def jsonValid (cs : List Char) : Bool :=
  match pjson (cs.length + 1) PMode.value (skipWs cs) with
  | some rest => (skipWs rest).isEmpty
  | none => false

/-! ## Pretty-JSON-array framing (`new_with_pretty_json_array`) -/

/-- Drop every leading comma (Rust `trim_start_matches(',')`). -/
def dropCommasStart (cs : List Char) : List Char := cs.dropWhile (fun c => c = ',')

/-- Drop at most one leading comma (Rust `strip_prefix(',')
.unwrap_or(..)`). -/
def dropOneComma (cs : List Char) : List Char :=
  match cs with
  | c :: r => if c = ',' then r else cs
  | [] => cs

/-- The `for (i, _) in remaining_content.match_indices` loop: scan the close
braces of the buffer in order, and at the first position where the prefix up
to and including the close brace is valid JSON, return that candidate
together with the rest.  `pre` is the already-scanned front. -/
def findObjEndAux (pre : List Char) : List Char → Option (List Char × List Char)
  | [] => none
  | c :: rest =>
    if c = rbrace ∧ jsonValid (pre ++ [c]) = true then some (pre ++ [c], rest)
    else findObjEndAux (pre ++ [c]) rest

/-- Entry point of the close-brace scan. -/
def findObjEnd (cs : List Char) : Option (List Char × List Char) :=
  findObjEndAux [] cs

/-- The `while !remaining_content.is_empty() && remaining_content
.starts_with` object loop of `new_with_pretty_json_array`, fuel-driven
(fuel is supplied at `length + 1`; every iteration consumes at least the
candidate object).  Returns the emitted messages in order together with the
stored `partial_message` when no complete object could be found. -/
def prettyLoopF : Nat → List Char → List (List Char) × Option (List Char)
  | 0, _ => ([], none)
  | f + 1, remaining =>
    match remaining with
    | [] => ([], none)
    | c :: rest =>
      if c = lbrace then
        match findObjEnd (c :: rest) with
        | some (cand, after) =>
          let r1 := strTrim after
          let r2 := strTrim (dropOneComma r1)
          if r2.head? = some ']' then
            let s := prettyLoopF f r2.tail
            (cand :: [']'] :: s.1, s.2)
          else
            let s := prettyLoopF f r2
            (cand :: s.1, s.2)
        | none => ([], some (c :: rest))
      else ([], none)

/-- Mirror of `new_with_pretty_json_array` (`web_stream.rs`): combine the
retained fragment with the delivery, trim, emit a leading array-open marker,
drop leading commas, emit an array-close marker, then run the object loop.
Returns the messages in emission order (`first_message` then
`next_messages`) together with the new `partial_message`. -/
def prettyScan (pmsg : Option (List Char)) (buff : List Char) :
    List (List Char) × Option (List Char) :=
  let combined := pmsg.getD [] ++ buff
  let buffStr := strTrim combined
  let start := match buffStr with
    | c :: r => if c = '[' then (([['[']] : List (List Char)), strTrim r) else ([], buffStr)
    | [] => ([], buffStr)
  let r1 := strTrim (dropCommasStart start.2)
  let second := match r1 with
    | d :: r => if d = ']' then (start.1 ++ [[']']], r) else (start.1, r1)
    | [] => (start.1, r1)
  let s := prettyLoopF (second.2.length + 1) second.2
  (second.1 ++ s.1, s.2)

/-- End-of-transport handling of the retained fragment in pretty-JSON-array
mode (`WebStream::poll_next`, `Poll::Ready(None)` branch): a non-empty
fragment is emitted when its trim is exactly the close bracket or when it is
valid JSON, and is silently discarded otherwise. -/
def prettyEndFlush (p : List Char) : List (List Char) :=
  if p.isEmpty then []
  else if strTrim p = [']'] ∨ jsonValid p = true then [p]
  else []

/-- Full run of `WebStream` in pretty-JSON-array mode over a scripted
delivery sequence: emit each delivery's messages in order, then handle the
retained fragment at transport close. -/
def prettyRunFrom (pmsg : Option (List Char)) : List (List Char) → List (List Char)
  | [] =>
    match pmsg with
    | some p => prettyEndFlush p
    | none => []
  | d :: ds =>
    let s := prettyScan pmsg d
    s.1 ++ prettyRunFrom s.2 ds

/-- Full pretty-JSON-array run from the initial state. -/
def prettyRun (ds : List (List Char)) : List (List Char) :=
  prettyRunFrom none ds

/-- The retained `partial_message` left after scanning a delivery sequence
in pretty-JSON-array mode. -/
def prettyPmAfter : Option (List Char) → List (List Char) → Option (List Char)
  | pm, [] => pm
  | pm, d :: ds => prettyPmAfter (prettyScan pm d).2 ds

/-- Final retained fragment of a pretty-JSON-array run from the initial
state. -/
def prettyFinalPartial (ds : List (List Char)) : Option (List Char) :=
  prettyPmAfter none ds

/-- Whether `seg` occurs as a contiguous segment of `hay`. -/
def containsSeg (hay seg : List Char) : Bool :=
  match hay with
  | [] => seg.isEmpty
  | _ :: t => leadsWith seg hay || containsSeg t seg

/-- First delivery of the C3 counterexample: open bracket, space, open
brace, quote, letter a, trailing space (the start of a JSON object whose
key contains a space, cut inside the string literal). -/
def c3d1 : List Char := ['[', ' ', lbrace, '"', 'a', ' ']

/-- Second delivery of the C3 counterexample: the rest of the object and
the array close. -/
def c3d2 : List Char := ['b', '"', ':', '1', rbrace, ' ', ']']

/-- The object message the code emits for the C3 deliveries: the space
inside the key has been deleted. -/
def c3obj : List Char := [lbrace, '"', 'a', 'b', '"', ':', '1', rbrace]

/-- Claim C3: no-loss reconstruction fails for the balanced-structure
strategy.  The scanner trims the retained fragment, so when a delivery
boundary splits a JSON string literal next to a space, that space is
deleted: the original stream is open bracket, space, an object whose key is
the three characters a, space, b, then space and close bracket; the emitted
object message has key ab and is not even a contiguous segment of the
source, so no concatenation of consumed spans plus retained fragment can
reconstruct the source bytes. -/
theorem c3_pretty_partial_trim_corruption :
    prettyRun [c3d1, c3d2] = [['['], c3obj, [']']] ∧
    containsSeg (c3d1 ++ c3d2) c3obj = false := by
  constructor
  · rfl
  · decide

/-- Sanity check: the well-aligned balanced-structure example of the spec
(deliveries splitting between objects) frames as expected: array-open, the
two objects, array-close. -/
theorem prettyRun_spec_example :
    prettyRun [['[', ' ', lbrace, '"', 'a', '"', ':', '1'],
               [rbrace, ' ', ',', ' ', lbrace, '"', 'b', '"', ':', '2', rbrace, ' ', ']']] =
      [['['], [lbrace, '"', 'a', '"', ':', '1', rbrace],
       [lbrace, '"', 'b', '"', ':', '2', rbrace], [']']] := by
  rfl

/-! ## Invariants of the pretty-JSON-array scanner -/

/-- Any fragment stored by the object loop starts with an open brace: the
source stores the remainder only inside the branch guarded by
`remaining_content.starts_with` on the open brace. -/
theorem prettyLoopF_pm_lbrace (f : Nat) :
    ∀ r : List Char, (prettyLoopF f r).2 = none ∨
      ∃ t, (prettyLoopF f r).2 = some (lbrace :: t) := by
  induction f with
  | zero => intro r; left; rfl
  | succ f ih =>
    intro r
    cases r with
    | nil => left; rfl
    | cons c rest =>
      by_cases hc : c = lbrace
      · subst hc
        rcases hfo : findObjEnd (lbrace :: rest) with _ | ⟨cand, after⟩
        · right
          refine ⟨rest, ?_⟩
          simp [prettyLoopF, hfo]
        · by_cases hb : (strTrim (dropOneComma (strTrim after))).head? = some ']'
          · have h2 := ih (strTrim (dropOneComma (strTrim after))).tail
            simpa [prettyLoopF, hfo, hb] using h2
          · have h2 := ih (strTrim (dropOneComma (strTrim after)))
            simpa [prettyLoopF, hfo, hb] using h2
      · left
        simp [prettyLoopF, hc]

/-- The fragment stored by one pretty-JSON-array scan starts with an open
brace. -/
theorem prettyScan_pm_lbrace (pm : Option (List Char)) (d : List Char) :
    (prettyScan pm d).2 = none ∨ ∃ t, (prettyScan pm d).2 = some (lbrace :: t) := by
  have h := prettyLoopF_pm_lbrace
  simp only [prettyScan]
  apply h

/-- Across a whole delivery sequence, a retained fragment that is either
absent or brace-headed stays that way. -/
theorem prettyPmAfter_lbrace :
    ∀ (ds : List (List Char)) (pm : Option (List Char)),
      (pm = none ∨ ∃ t, pm = some (lbrace :: t)) →
      ∀ p, prettyPmAfter pm ds = some p → ∃ t, p = lbrace :: t := by
  intro ds
  induction ds with
  | nil =>
    intro pm hpm p h
    rcases hpm with hn | ⟨t, ht⟩
    · rw [hn] at h; exact absurd h (by simp [prettyPmAfter])
    · rw [ht] at h
      simp [prettyPmAfter] at h
      exact ⟨t, h.symm⟩
  | cons d ds ih =>
    intro pm hpm p h
    exact ih (prettyScan pm d).2 (by simpa using prettyScan_pm_lbrace pm d) p h

/-- The final retained fragment of a pretty-JSON-array run starts with an
open brace. -/
theorem prettyFinalPartial_lbrace (ds : List (List Char)) (p : List Char)
    (h : prettyFinalPartial ds = some p) : ∃ t, p = lbrace :: t :=
  prettyPmAfter_lbrace ds none (Or.inl rfl) p h

/-- Dropping a prefix by a predicate that fails on the last element keeps
that last element. -/
theorem dropWhile_append_single (p : Char → Bool) (xs : List Char) (a : Char)
    (ha : p a = false) :
    ∃ ys, List.dropWhile p (xs ++ [a]) = ys ++ [a] := by
  induction xs with
  | nil => exact ⟨[], by simp [List.dropWhile, ha]⟩
  | cons x xs ih =>
    by_cases hx : p x
    · simpa [List.dropWhile, hx] using ih
    · exact ⟨x :: xs, by simp [List.dropWhile, hx]⟩

/-- Trimming a list whose head is not whitespace keeps that head. -/
theorem strTrim_cons_not_ws (a : Char) (l : List Char) (ha : rustWs a = false) :
    ∃ t, strTrim (a :: l) = a :: t := by
  unfold strTrim
  have h1 : List.dropWhile rustWs (a :: l) = a :: l := by simp [List.dropWhile, ha]
  rw [h1, List.reverse_cons]
  obtain ⟨ys, hys⟩ := dropWhile_append_single rustWs l.reverse a ha
  rw [hys, List.reverse_append]
  exact ⟨ys.reverse, by simp⟩

/-- Claim C8: balanced-structure end-of-transport policy.  For every
retained fragment the scanner can actually leave at transport close, the
fragment is emitted as a final message exactly when it is a complete JSON
value or exactly the close bracket, and is discarded (no message, and the
embedding has no error outcome on this path) otherwise.  The close-bracket
disjunct is vacuous for reachable fragments, which always start with an
open brace. -/
theorem c8_end_flush_iff_valid (ds : List (List Char)) (p : List Char)
    (h : prettyFinalPartial ds = some p) :
    (prettyEndFlush p = [p] ↔ (jsonValid p = true ∨ p = [']'])) ∧
    (prettyEndFlush p = [] ↔ ¬ (jsonValid p = true ∨ p = [']'])) := by
  obtain ⟨t, rfl⟩ := prettyFinalPartial_lbrace ds p h
  have hws : rustWs lbrace = false := by decide
  obtain ⟨u, hu⟩ := strTrim_cons_not_ws lbrace t hws
  have htrim : ¬ strTrim (lbrace :: t) = [']'] := by
    rw [hu]
    intro heq
    exact absurd (List.head_eq_of_cons_eq heq) (by decide)
  have hpeq : ¬ (lbrace :: t) = [']'] := by
    intro heq
    exact absurd (List.head_eq_of_cons_eq heq) (by decide)
  have hne : (lbrace :: t).isEmpty = false := rfl
  by_cases hv : jsonValid (lbrace :: t) = true
  · constructor
    · simp [prettyEndFlush, hne, hv]
    · simp [prettyEndFlush, hne, hv]
  · constructor
    · simp [prettyEndFlush, hne, hv, htrim, hpeq]
    · simp [prettyEndFlush, hne, hv, htrim, hpeq]

/-- Witness for C8: the single delivery consisting of one open brace leaves
that brace as the retained fragment; it is not valid JSON and not the close
bracket, so it is discarded at transport close. -/
theorem c8_end_flush_iff_valid_witness :
    (prettyEndFlush [lbrace] = [[lbrace]] ↔
      (jsonValid [lbrace] = true ∨ [lbrace] = [']'])) ∧
    (prettyEndFlush [lbrace] = [] ↔
      ¬ (jsonValid [lbrace] = true ∨ [lbrace] = [']'])) :=
  c8_end_flush_iff_valid [[lbrace]] [lbrace] (by decide)

/-! ## No-empty-message invariants -/

/-- The optional queue built from the `next` accumulator denotes the
accumulator itself. -/
theorem nextOpt_getD (next : List (List Char)) :
    (if next.isEmpty then none else some next).getD [] = next := by
  cases next with
  | nil => rfl
  | cons a l => rfl

/-- Every message assembled by the delimiter candidate loop is non-empty,
given that the accumulators hold only non-empty messages: candidates are
checked against emptiness before being promoted. -/
theorem delimLoop_messages_ne :
    ∀ (parts : List (List Char)) (pmsg first : Option (List Char))
      (next : List (List Char)) (cand : Option (List Char)),
      (∀ f, first = some f → f ≠ []) → (∀ m ∈ next, m ≠ []) →
      ∀ m ∈ brMessages (delimLoop pmsg first next cand parts).1, m ≠ [] := by
  intro parts
  induction parts with
  | nil =>
    intro pmsg first next cand hf hn m hm
    simp only [delimLoop, brMessages, nextOpt_getD] at hm
    rcases first with _ | f
    · simp at hm
      exact hn m hm
    · simp at hm
      rcases hm with hm | hm
      · rw [hm]; exact hf f rfl
      · exact hn m hm
  | cons part rest ih =>
    intro pmsg first next cand hf hn m hm
    rcases cand with _ | c
    · rcases pmsg with _ | p
      · exact ih none first next (some part) hf hn m (by simpa [delimLoop] using hm)
      · exact ih none first next (some (p ++ part)) hf hn m (by simpa [delimLoop] using hm)
    · by_cases hc : c.isEmpty
      · exact ih pmsg first next none hf hn m (by simpa [delimLoop, hc] using hm)
      · have hcne : c ≠ [] := by
          intro hceq; rw [hceq] at hc; exact hc rfl
        rcases first with _ | f
        · refine ih pmsg (some c) next none ?_ hn m (by simpa [delimLoop, hc] using hm)
          intro g hg
          injection hg with hg
          rw [← hg]; exact hcne
        · refine ih pmsg (some f) (next ++ [c]) none hf ?_ m
            (by simpa [delimLoop, hc] using hm)
          intro g hg
          rcases List.mem_append.mp hg with hg | hg
          · exact hn g hg
          · rw [List.mem_singleton.mp hg]; exact hcne

/-- Every message of a delimiter-mode run is non-empty: mid-stream empty
segments are skipped, and an empty retained fragment is not flushed. -/
theorem delimRunFrom_messages_ne :
    ∀ (ds : List (List Char)) (delim : List Char) (pmsg : Option (List Char)),
      ∀ m ∈ delimRunFrom delim pmsg ds, m ≠ [] := by
  intro ds
  induction ds with
  | nil =>
    intro delim pmsg m hm
    rcases pmsg with _ | p
    · simp [delimRunFrom] at hm
    · simp only [delimRunFrom] at hm
      by_cases hp : p.isEmpty
      · rw [if_pos hp] at hm; simp at hm
      · rw [if_neg hp] at hm
        rw [List.mem_singleton.mp hm]
        intro hpe; rw [hpe] at hp; exact hp rfl
  | cons d ds ih =>
    intro delim pmsg m hm
    simp only [delimRunFrom] at hm
    rcases List.mem_append.mp hm with hm | hm
    · have : m ∈ brMessages (delimLoop pmsg none [] none (splitOnSep delim d)).1 := by
        simpa [delimStep, processBuffStringDelimited] using hm
      exact delimLoop_messages_ne (splitOnSep delim d) pmsg none [] none
        (by intro f hf; cases hf) (by intro g hg; cases hg) m this
    · exact ih delim _ m hm

/-- The candidate returned by the close-brace scan is non-empty (it ends
with the close brace that was scanned). -/
theorem findObjEndAux_cand_ne :
    ∀ (suf pre cand after : List Char),
      findObjEndAux pre suf = some (cand, after) → cand ≠ [] := by
  intro suf
  induction suf with
  | nil => intro pre cand after h; cases h
  | cons c rest ih =>
    intro pre cand after h
    by_cases hc : c = rbrace ∧ jsonValid (pre ++ [c]) = true
    · rw [findObjEndAux, if_pos hc] at h
      injection h with h
      injection h with h1 h2
      rw [← h1]
      simp
    · rw [findObjEndAux, if_neg hc] at h
      exact ih (pre ++ [c]) cand after h

/-- Every message produced by the object loop is non-empty. -/
theorem prettyLoopF_messages_ne (f : Nat) :
    ∀ (r : List Char), ∀ m ∈ (prettyLoopF f r).1, m ≠ [] := by
  induction f with
  | zero => intro r m hm; simp [prettyLoopF] at hm
  | succ f ih =>
    intro r m hm
    cases r with
    | nil => simp [prettyLoopF] at hm
    | cons c rest =>
      by_cases hc : c = lbrace
      · subst hc
        rcases hfo : findObjEnd (lbrace :: rest) with _ | ⟨cand, after⟩
        · simp [prettyLoopF, hfo] at hm
        · have hcand : cand ≠ [] := findObjEndAux_cand_ne (lbrace :: rest) [] cand after hfo
          by_cases hb : (strTrim (dropOneComma (strTrim after))).head? = some ']'
          · simp only [prettyLoopF, hfo, hb, if_pos] at hm
            simp at hm
            rcases hm with hm | hm | hm
            · rw [hm]; exact hcand
            · rw [hm]; simp
            · exact ih _ m hm
          · simp only [prettyLoopF, hfo, if_neg hb] at hm
            simp at hm
            rcases hm with hm | hm
            · rw [hm]; exact hcand
            · exact ih _ m hm
      · simp [prettyLoopF, hc] at hm

/-- Every message produced by one pretty-JSON-array scan is non-empty. -/
theorem prettyScan_messages_ne (pm : Option (List Char)) (d : List Char) :
    ∀ m ∈ (prettyScan pm d).1, m ≠ [] := by
  intro m hm
  simp only [prettyScan] at hm
  rcases List.mem_append.mp hm with hm | hm
  · -- the bracket markers emitted before the object loop
    rcases hsp : strTrim (pm.getD [] ++ d) with _ | ⟨c, r⟩ <;> rw [hsp] at hm
    · rw [show strTrim (dropCommasStart []) = [] from rfl] at hm
      simp at hm
    · by_cases hc : c = '['
      · simp only [if_pos hc] at hm
        rcases hdr : strTrim (dropCommasStart (strTrim r)) with _ | ⟨e, r2⟩ <;>
          rw [hdr] at hm
        · simp at hm; rw [hm]; simp
        · by_cases he : e = ']'
          · simp only [if_pos he] at hm
            simp at hm
            rcases hm with hm | hm <;> (rw [hm]; simp)
          · simp only [if_neg he] at hm
            simp at hm
            rw [hm]; simp
      · simp only [if_neg hc] at hm
        rcases hdr : strTrim (dropCommasStart (c :: r)) with _ | ⟨e, r2⟩ <;>
          rw [hdr] at hm
        · simp at hm
        · by_cases he : e = ']'
          · simp only [if_pos he] at hm
            simp at hm
            rw [hm]; simp
          · simp only [if_neg he] at hm
            simp at hm
  · exact prettyLoopF_messages_ne _ _ m hm

/-- Every message of a pretty-JSON-array run is non-empty: the end-of-
transport flush checks emptiness before emitting. -/
theorem prettyRunFrom_messages_ne :
    ∀ (ds : List (List Char)) (pm : Option (List Char)),
      ∀ m ∈ prettyRunFrom pm ds, m ≠ [] := by
  intro ds
  induction ds with
  | nil =>
    intro pm m hm
    rcases pm with _ | p
    · simp [prettyRunFrom] at hm
    · simp only [prettyRunFrom, prettyEndFlush] at hm
      by_cases hp : p.isEmpty
      · rw [if_pos hp] at hm; simp at hm
      · rw [if_neg hp] at hm
        by_cases hv : strTrim p = [']'] ∨ jsonValid p = true
        · rw [if_pos hv] at hm
          rw [List.mem_singleton.mp hm]
          intro hpe; rw [hpe] at hp; exact hp rfl
        · rw [if_neg hv] at hm; simp at hm
  | cons d ds ih =>
    intro pm m hm
    simp only [prettyRunFrom] at hm
    rcases List.mem_append.mp hm with hm | hm
    · exact prettyScan_messages_ne pm d m hm
    · exact ih _ m hm

/-- Claim C10: every message yielded by the byte framer, in delimiter mode
and in pretty-JSON-array mode alike, is non-empty: empty segments produced
by doubled separators are skipped mid-stream, and an empty retained
fragment is never flushed at end of stream. -/
theorem c10_no_empty_messages :
    (∀ (delim : List Char) (ds : List (List Char)) (m : List Char),
        m ∈ delimRun delim ds → m ≠ []) ∧
    (∀ (ds : List (List Char)) (m : List Char), m ∈ prettyRun ds → m ≠ []) := by
  constructor
  · intro delim ds m hm
    exact delimRunFrom_messages_ne ds delim none m hm
  · intro ds m hm
    exact prettyRunFrom_messages_ne ds none m hm

/-- Witness for C10: the delimiter run on one delivery a LF yields the
message a, which is indeed non-empty. -/
theorem c10_no_empty_messages_witness : "a".toList ≠ ([] : List Char) :=
  c10_no_empty_messages.1 ['\n'] ["a\n".toList] "a".toList (by decide)

/-! ## Uniform event model and normalizer state

`adapter/inter_stream.rs` provides the event types; the tool-call event
variant appears as used by `gemini/streamer.rs`.  -/

/-- Modelled from the spec: the `Usage` snapshot type (`crate::chat::Usage`)
is not present under the sources; the spec describes it only as "a usage
snapshot with cumulative-to-date semantics", so it is modelled as a record
of optional token counts.  Only whole-snapshot replacement matters here. -/
structure Usage where
  prompt_tokens : Option Nat
  completion_tokens : Option Nat
  total_tokens : Option Nat
deriving DecidableEq

/-- Modelled from the spec: the `ToolCall` payload type
(`crate::chat::ToolCall`) is not present under the sources; the spec treats
it as an opaque call payload carried by the ToolCall event. -/
structure ToolCall where
  payload : String
deriving DecidableEq

/-- Mirror of `InterStreamEnd` (`adapter/inter_stream.rs`): the
capture-gated aggregates moved out at stream end. -/
structure InterStreamEnd where
  usage : Option Usage
  content : Option String
  reasoning_content : Option String
deriving DecidableEq

/-- Mirror of `InterStreamEvent` (`adapter/inter_stream.rs`), including the
tool-call variant emitted by `gemini/streamer.rs`. -/
inductive InterStreamEvent where
  | start
  | chunk (s : String)
  | reasoningChunk (s : String)
  | toolCall (tc : ToolCall)
  | endEvent (e : InterStreamEnd)
deriving DecidableEq

/-- Modelled from the spec: `StreamerOptions`
(`adapter/adapters/support.rs` is referenced but absent from the sources);
per the spec, "CapturedOptions: immutable per-stream capture flags resolved
before streaming starts".  Field names follow their uses in
`gemini/streamer.rs`. -/
structure StreamerOptions where
  capture_usage : Bool
  capture_content : Bool
  capture_reasoning_content : Bool
deriving DecidableEq

/-- Modelled from the spec: `StreamerCapturedData`
(`adapter/adapters/support.rs` is absent from the sources); per the spec,
"mutable per-stream state (usage/content/reasoning) owned exclusively by
the Normalizer".  Field names follow their uses in `gemini/streamer.rs`. -/
structure StreamerCapturedData where
  usage : Option Usage
  content : Option String
  reasoning_content : Option String
deriving DecidableEq

/-! ## Gemini streamer (`adapter/adapters/gemini/streamer.rs`) -/

/-- Mirror of `GeminiChatContent` as consumed by `gemini/streamer.rs`:
either text or a tool call. -/
inductive GeminiChatContent where
  | text (s : String)
  | toolCall (tc : ToolCall)
deriving DecidableEq

/-- Mirror of `GeminiChatResponse` as destructured by `gemini/streamer.rs`:
optional main content, optional reasoning content, and a usage snapshot. -/
structure GeminiChatResponse where
  content : Option GeminiChatContent
  reasoning_content : Option GeminiChatContent
  usage : Usage
deriving DecidableEq

/-- Outcome of the injected per-provider decode of one complete message
(the composition of the JSON parse and
`GeminiAdapter::body_to_gemini_chat_response`); a failure of either stage is
the DecodeError case. -/
inductive Decoded where
  | ok (r : GeminiChatResponse)
  | fail
deriving DecidableEq

/-- One item yielded by the inner `EventSource`: the open event, a message
(already carried through the decode), the graceful `StreamEnded` error, or
any other transport error.  Exhaustion of the script models
`Poll::Ready(None)`. -/
inductive SrcItem where
  | evOpen
  | message (d : Decoded)
  | errStreamEnded
  | errOther
deriving DecidableEq

/-- Outcome of one `poll_next` call: an event, an error
(`Poll::Ready(Some(Err(..)))`), or stream termination
(`Poll::Ready(None)`). `Poll::Pending` does not arise for scripted
sources. -/
inductive PollResult where
  | event (e : InterStreamEvent)
  | error
  | doneNone
deriving DecidableEq

/-- Mirror of the `GeminiStreamer` state (`gemini/streamer.rs`):
the done flag, the capture options, the captured aggregates and the
deferred main-content slot. -/
structure GeminiStreamer where
  done : Bool
  options : StreamerOptions
  captured_data : StreamerCapturedData
  pending_main_content : Option String
deriving DecidableEq

/-- Mirror of `GeminiStreamer::new`: not done, empty aggregates, no
deferred content. -/
def initGemini (opts : StreamerOptions) : GeminiStreamer :=
  ⟨false, opts, ⟨none, none, none⟩, none⟩

/-- The append-or-init capture update
(`match captured { Some(c) => c.push_str(t), None => Some(t) }`). -/
def appendCapture (cur : Option String) (t : String) : Option String :=
  match cur with
  | some c => some (c ++ t)
  | none => some t

/-- The usage capture of a decoded unit (`if capture_usage { captured.usage
= Some(usage) }`): replacement, not accumulation. -/
def stepUsage (st : GeminiStreamer) (us : Usage) : GeminiStreamer :=
  if st.options.capture_usage then
    { st with captured_data := { st.captured_data with usage := some us } }
  else st

/-- The reasoning capture (`if capture_reasoning_content { push or init }`). -/
def stepReasoning (st : GeminiStreamer) (r : String) : GeminiStreamer :=
  if st.options.capture_reasoning_content then
    { st with captured_data := { st.captured_data with
        reasoning_content := appendCapture st.captured_data.reasoning_content r } }
  else st

/-- The content capture (`if capture_content { push or init }`), shared by
the main-text emission and the deferred-content flush. -/
def stepContent (st : GeminiStreamer) (m : String) : GeminiStreamer :=
  if st.options.capture_content then
    { st with captured_data := { st.captured_data with
        content := appendCapture st.captured_data.content m } }
  else st

/-- The End payload built from the captured aggregates
(`captured_data.*.take()`). -/
def endOf (st : GeminiStreamer) : InterStreamEnd :=
  ⟨st.captured_data.usage, st.captured_data.content, st.captured_data.reasoning_content⟩

/-- The `loop` body of `GeminiStreamer::poll_next`, consuming scripted
source items.  Follows the source branch for branch: usage is captured for
every successfully decoded unit; a tool call in the main content returns
immediately; a reasoning text is captured and emitted, deferring any main
text; main text alone is captured and emitted; a unit with none of these
continues the loop; `StreamEnded` and script exhaustion emit End and set
done; any other transport error sets done and surfaces the error; a decode
failure surfaces the error without touching done. -/
def pollLoop (st : GeminiStreamer) : List SrcItem → PollResult × GeminiStreamer × List SrcItem
  | [] =>
    (.event (.endEvent (endOf st)),
     { st with done := true, captured_data := ⟨none, none, none⟩ }, [])
  | item :: rest =>
    match item with
    | .evOpen => (.event .start, st, rest)
    | .errStreamEnded =>
      (.event (.endEvent (endOf st)),
       { st with done := true, captured_data := ⟨none, none, none⟩ }, rest)
    | .errOther => (.error, { st with done := true }, rest)
    | .message .fail => (.error, st, rest)
    | .message (.ok u) =>
      let st1 := stepUsage st u.usage
      match u.content with
      | some (.toolCall tc) => (.event (.toolCall tc), st1, rest)
      | c =>
        let mainText : Option String :=
          match c with
          | some (.text t) => some t
          | _ => none
        match u.reasoning_content with
        | some (.text r) =>
          let st2 := stepReasoning st1 r
          let st3 := match mainText with
            | some m => { st2 with pending_main_content := some m }
            | none => st2
          (.event (.reasoningChunk r), st3, rest)
        | _ =>
          match mainText with
          | some m => (.event (.chunk m), stepContent st1 m, rest)
          | none => pollLoop st1 rest

/-- Mirror of `GeminiStreamer::poll_next`: when done, terminate; otherwise
first flush any deferred main content (capturing it if requested); then run
the source loop. -/
def pollNext (st : GeminiStreamer) (src : List SrcItem) :
    PollResult × GeminiStreamer × List SrcItem :=
  if st.done then (.doneNone, st, src)
  else
    match st.pending_main_content with
    | some t =>
      (.event (.chunk t), { stepContent st t with pending_main_content := none }, src)
    | none => pollLoop st src

/-- Repeated pulls of the Gemini streamer: the list of the first `n` poll
outcomes. -/
def geminiDrive (st : GeminiStreamer) (src : List SrcItem) : Nat → List PollResult
  | 0 => []
  | n + 1 =>
    let s := pollNext st src
    s.1 :: geminiDrive s.2.1 s.2.2 n

/-! ## LlamaCpp streamer (`adapter/adapters/llamacpp/streamer.rs`) -/

/-- Mirror of `StreamChunk` (`llamacpp/streamer.rs`): a delta text, a
completion marker, or an error text. -/
inductive StreamChunk where
  | delta (s : String)
  | chDone
  | chError (e : String)
deriving DecidableEq

/-- Mirror of the `LlamaCppStreamer` state: the accumulated buffer and the
finished flag (the channel is modelled as a scripted chunk list). -/
structure LlamaCppStreamer where
  buffer : String
  finished : Bool
deriving DecidableEq

/-- Mirror of `LlamaCppStreamer::poll_next`: a delta is appended to the
buffer and emitted as a chunk; completion emits End whose content is the
whole buffer when non-empty (no capture option is consulted — the streamer
has none); an error chunk or channel closure finish the stream. -/
def llamaPollNext (st : LlamaCppStreamer) (chan : List StreamChunk) :
    PollResult × LlamaCppStreamer × List StreamChunk :=
  if st.finished then (.doneNone, st, chan)
  else
    match chan with
    | [] => (.doneNone, { st with finished := true }, [])
    | c :: rest =>
      match c with
      | .delta t =>
        (.event (.chunk t), { st with buffer := st.buffer ++ t }, rest)
      | .chDone =>
        (.event (.endEvent ⟨none, if st.buffer = "" then none else some st.buffer, none⟩),
         { st with finished := true }, rest)
      | .chError _ => (.error, { st with finished := true }, rest)

/-- Repeated pulls of the LlamaCpp streamer. -/
def llamaDrive (st : LlamaCppStreamer) (chan : List StreamChunk) : Nat → List PollResult
  | 0 => []
  | n + 1 =>
    let s := llamaPollNext st chan
    s.1 :: llamaDrive s.2.1 s.2.2 n

/-- Claim C7 counterexample: the LlamaCpp streamer populates the content
field of End without any capture option having been requested — it has no
capture options at all and copies its buffer unconditionally.  A fresh
streamer fed one delta and the completion marker ends with content present,
refuting the claim that capture gating "holds for every Streamer
implementation exposing the uniform event model". -/
theorem c7_llamacpp_uncaptured_content :
    llamaDrive ⟨"", false⟩ [StreamChunk.delta "hi", StreamChunk.chDone] 2 =
      [PollResult.event (InterStreamEvent.chunk "hi"),
       PollResult.event (InterStreamEvent.endEvent ⟨none, some "hi", none⟩)] := by
  decide

/-! ## Properties of the Gemini streamer -/

/-- Effect of the usage-capture step on every state component. -/
theorem stepUsage_spec (st : GeminiStreamer) (us : Usage) :
    (stepUsage st us).options = st.options ∧
    (stepUsage st us).done = st.done ∧
    (stepUsage st us).pending_main_content = st.pending_main_content ∧
    (stepUsage st us).captured_data.content = st.captured_data.content ∧
    (stepUsage st us).captured_data.reasoning_content = st.captured_data.reasoning_content ∧
    (st.options.capture_usage = false →
      (stepUsage st us).captured_data.usage = st.captured_data.usage) ∧
    (st.options.capture_usage = true →
      (stepUsage st us).captured_data.usage = some us) := by
  by_cases h : st.options.capture_usage <;> simp [stepUsage, h]

/-- Effect of the reasoning-capture step on every state component. -/
theorem stepReasoning_spec (st : GeminiStreamer) (r : String) :
    (stepReasoning st r).options = st.options ∧
    (stepReasoning st r).done = st.done ∧
    (stepReasoning st r).pending_main_content = st.pending_main_content ∧
    (stepReasoning st r).captured_data.usage = st.captured_data.usage ∧
    (stepReasoning st r).captured_data.content = st.captured_data.content ∧
    (st.options.capture_reasoning_content = false →
      (stepReasoning st r).captured_data.reasoning_content =
        st.captured_data.reasoning_content) := by
  by_cases h : st.options.capture_reasoning_content <;> simp [stepReasoning, h]

/-- Effect of the content-capture step on every state component. -/
theorem stepContent_spec (st : GeminiStreamer) (m : String) :
    (stepContent st m).options = st.options ∧
    (stepContent st m).done = st.done ∧
    (stepContent st m).pending_main_content = st.pending_main_content ∧
    (stepContent st m).captured_data.usage = st.captured_data.usage ∧
    (stepContent st m).captured_data.reasoning_content =
      st.captured_data.reasoning_content ∧
    (st.options.capture_content = false →
      (stepContent st m).captured_data.content = st.captured_data.content) := by
  by_cases h : st.options.capture_content <;> simp [stepContent, h]

/-- Claim C4 counterexample: after a decode error, the streamer's done flag
is untouched, so the very next pull still consumes the source and emits a
further event — here a content chunk — contradicting the claim that a
DecodeError moves the machine to Ended with no further events. -/
theorem c4_event_after_decode_error :
    geminiDrive (initGemini ⟨true, true, true⟩)
      [SrcItem.message Decoded.fail,
       SrcItem.message (Decoded.ok
         ⟨some (GeminiChatContent.text "M"), none, ⟨none, none, none⟩⟩)] 2 =
      [PollResult.error, PollResult.event (InterStreamEvent.chunk "M")] := by
  decide

/-- Claim C4 (amended): only transport-level failures are terminal.  A
non-graceful transport error surfaces as the pull's error, sets done, and
every later pull returns immediate completion with no event; a decode
failure surfaces as the pull's error but leaves done unset, so the machine
is not Ended and later pulls may emit further events. -/
theorem c4_transport_errors_terminal (st : GeminiStreamer) (rest : List SrcItem)
    (hd : st.done = false) (hp : st.pending_main_content = none) :
    (∃ st1, pollNext st (SrcItem.errOther :: rest) = (PollResult.error, st1, rest) ∧
      st1.done = true ∧ ∀ src2, pollNext st1 src2 = (PollResult.doneNone, st1, src2)) ∧
    (∃ st2, pollNext st (SrcItem.message Decoded.fail :: rest) =
      (PollResult.error, st2, rest) ∧ st2.done = false) := by
  constructor
  · refine ⟨{ st with done := true }, ?_, rfl, ?_⟩
    · simp [pollNext, hd, hp, pollLoop]
    · intro src2
      simp [pollNext]
  · refine ⟨st, ?_, hd⟩
    simp [pollNext, hd, hp, pollLoop]

/-- Witness for the amended C4 at a fresh streamer with one-item scripts. -/
theorem c4_transport_errors_terminal_witness :
    (∃ st1, pollNext (initGemini ⟨true, true, true⟩) [SrcItem.errOther] =
      (PollResult.error, st1, []) ∧
      st1.done = true ∧ ∀ src2, pollNext st1 src2 = (PollResult.doneNone, st1, src2)) ∧
    (∃ st2, pollNext (initGemini ⟨true, true, true⟩) [SrcItem.message Decoded.fail] =
      (PollResult.error, st2, []) ∧ st2.done = false) :=
  c4_transport_errors_terminal (initGemini ⟨true, true, true⟩) [] rfl rfl

/-- Claim C5: a unit carrying both a reasoning fragment and main text
yields the reasoning chunk on that pull, defers the main text, and the very
next pull — whatever the source then holds — emits exactly that main-text
chunk, consuming nothing from the source.  A unit's reasoning therefore
always precedes that same unit's main content, with no event in between. -/
theorem c5_reasoning_then_content (st : GeminiStreamer) (src : List SrcItem)
    (R M : String) (us : Usage)
    (hd : st.done = false) (hp : st.pending_main_content = none) :
    ∃ st1,
      pollNext st (SrcItem.message (Decoded.ok
          ⟨some (GeminiChatContent.text M), some (GeminiChatContent.text R), us⟩) :: src) =
        (PollResult.event (InterStreamEvent.reasoningChunk R), st1, src) ∧
      st1.pending_main_content = some M ∧ st1.done = false ∧
      ∀ src2, ∃ st2,
        pollNext st1 src2 = (PollResult.event (InterStreamEvent.chunk M), st2, src2) ∧
        st2.pending_main_content = none := by
  have hdone0 : (stepReasoning (stepUsage st us) R).done = false := by
    have h1 := (stepUsage_spec st us).2.1
    have h2 := (stepReasoning_spec (stepUsage st us) R).2.1
    rw [h2, h1, hd]
  have hdone1 : ({ stepReasoning (stepUsage st us) R with
      pending_main_content := some M } : GeminiStreamer).done = false := hdone0
  refine ⟨{ stepReasoning (stepUsage st us) R with pending_main_content := some M },
    ?_, rfl, hdone1, ?_⟩
  · simp [pollNext, hd, hp, pollLoop]
  · intro src2
    refine ⟨{ stepContent { stepReasoning (stepUsage st us) R with
        pending_main_content := some M } M with pending_main_content := none }, ?_, rfl⟩
    simp [pollNext, hdone0]

/-- Witness for C5 at a fresh streamer and one concrete unit. -/
theorem c5_reasoning_then_content_witness :
    ∃ st1,
      pollNext (initGemini ⟨true, true, true⟩) [SrcItem.message (Decoded.ok
          ⟨some (GeminiChatContent.text "M"), some (GeminiChatContent.text "R"),
           ⟨none, none, none⟩⟩)] =
        (PollResult.event (InterStreamEvent.reasoningChunk "R"), st1, []) ∧
      st1.pending_main_content = some "M" ∧ st1.done = false ∧
      ∀ src2, ∃ st2,
        pollNext st1 src2 = (PollResult.event (InterStreamEvent.chunk "M"), st2, src2) ∧
        st2.pending_main_content = none :=
  c5_reasoning_then_content (initGemini ⟨true, true, true⟩) [] "R" "M"
    ⟨none, none, none⟩ rfl rfl

/-- Claim C6: a usage-only unit is silent and superseding: pulling across
it is identical to pulling the rest of the source from the state whose
usage aggregate was updated — no event is emitted for the unit and the
streamer keeps pulling within the same request — and when usage capture is
requested, the new snapshot replaces whatever was stored before. -/
theorem c6_usage_only_silent (st : GeminiStreamer) (src : List SrcItem) (us : Usage)
    (hd : st.done = false) (hp : st.pending_main_content = none) :
    pollNext st (SrcItem.message (Decoded.ok ⟨none, none, us⟩) :: src) =
      pollNext (stepUsage st us) src ∧
    (st.options.capture_usage = true →
      (stepUsage st us).captured_data.usage = some us) := by
  have hdone : (stepUsage st us).done = false := by
    rw [(stepUsage_spec st us).2.1, hd]
  have hpend : (stepUsage st us).pending_main_content = none := by
    rw [(stepUsage_spec st us).2.2.1, hp]
  constructor
  · simp [pollNext, hd, hp, pollLoop, hdone, hpend]
  · exact (stepUsage_spec st us).2.2.2.2.2.2

/-- Witness for C6 at a fresh streamer and one concrete snapshot. -/
theorem c6_usage_only_silent_witness :
    pollNext (initGemini ⟨true, true, true⟩)
        [SrcItem.message (Decoded.ok ⟨none, none, ⟨some 7, none, none⟩⟩)] =
      pollNext (stepUsage (initGemini ⟨true, true, true⟩) ⟨some 7, none, none⟩) [] ∧
    ((initGemini ⟨true, true, true⟩).options.capture_usage = true →
      (stepUsage (initGemini ⟨true, true, true⟩) ⟨some 7, none, none⟩).captured_data.usage =
        some ⟨some 7, none, none⟩) :=
  c6_usage_only_silent (initGemini ⟨true, true, true⟩) [] ⟨some 7, none, none⟩ rfl rfl

/-- The source loop can only produce an End event with an empty deferred
slot, provided it starts with an empty deferred slot: no branch of the loop
fills the slot and returns End in the same pull. -/
theorem pollLoop_end_pending :
    ∀ (src : List SrcItem) (st : GeminiStreamer),
      st.pending_main_content = none →
      ∀ e st2 rest,
        pollLoop st src = (PollResult.event (InterStreamEvent.endEvent e), st2, rest) →
        st2.pending_main_content = none := by
  intro src
  induction src with
  | nil =>
    intro st hp e st2 rest h
    have h2 : (pollLoop st []).2.1 = st2 := congrArg (fun x => x.2.1) h
    rw [← h2]
    exact hp
  | cons item rest0 ih =>
    intro st hp e st2 rest h
    cases item with
    | evOpen => exact absurd (congrArg (fun x => x.1) h) (by simp [pollLoop])
    | errStreamEnded =>
      have h2 : (pollLoop st (SrcItem.errStreamEnded :: rest0)).2.1 = st2 :=
        congrArg (fun x => x.2.1) h
      rw [← h2]
      exact hp
    | errOther => exact absurd (congrArg (fun x => x.1) h) (by simp [pollLoop])
    | message d =>
      cases d with
      | fail => exact absurd (congrArg (fun x => x.1) h) (by simp [pollLoop])
      | ok u =>
        rcases u with ⟨uc, ur, uu⟩
        rcases uc with _ | cc
        · rcases ur with _ | rr
          · -- usage-only unit: the loop continues
            have hp1 : (stepUsage st uu).pending_main_content = none := by
              rw [(stepUsage_spec st uu).2.2.1, hp]
            exact ih (stepUsage st uu) hp1 e st2 rest h
          · rcases rr with r | tc
            · exact absurd (congrArg (fun x => x.1) h) (by simp [pollLoop])
            · -- reasoning slot holds a tool call: the loop continues
              have hp1 : (stepUsage st uu).pending_main_content = none := by
                rw [(stepUsage_spec st uu).2.2.1, hp]
              exact ih (stepUsage st uu) hp1 e st2 rest h
        · rcases cc with t | tc
          · rcases ur with _ | rr
            · exact absurd (congrArg (fun x => x.1) h) (by simp [pollLoop])
            · rcases rr with r | rtc
              · exact absurd (congrArg (fun x => x.1) h) (by simp [pollLoop])
              · exact absurd (congrArg (fun x => x.1) h) (by simp [pollLoop])
          · exact absurd (congrArg (fun x => x.1) h) (by simp [pollLoop])

/-- Claim C9: deferred main content is never lost at stream end.  Whenever
a pull produces the End event, the deferred slot was empty going into the
pull (a pull with deferred content returns that chunk instead) and remains
empty after it — a unit's deferred content chunk is always emitted strictly
before End. -/
theorem c9_pending_none_at_end (st : GeminiStreamer) (src : List SrcItem)
    (e : InterStreamEnd) (st2 : GeminiStreamer) (rest : List SrcItem)
    (h : pollNext st src = (PollResult.event (InterStreamEvent.endEvent e), st2, rest)) :
    st.pending_main_content = none ∧ st2.pending_main_content = none := by
  by_cases hd : st.done = true
  · rw [pollNext, if_pos hd] at h
    exact absurd (congrArg (fun x => x.1) h) (by simp)
  · have hd2 : st.done = false := by
      cases hdd : st.done
      · rfl
      · exact absurd hdd hd
    rcases hpd : st.pending_main_content with _ | t
    · rw [pollNext, if_neg hd] at h
      rw [hpd] at h
      exact ⟨rfl, pollLoop_end_pending src st hpd e st2 rest h⟩
    · rw [pollNext, if_neg hd] at h
      rw [hpd] at h
      exact absurd (congrArg (fun x => x.1) h) (by simp)

/-- Witness for C9: a fresh streamer over an exhausted source emits End,
and both the entry and exit states have an empty deferred slot. -/
theorem c9_pending_none_at_end_witness :
    (initGemini ⟨true, true, true⟩).pending_main_content = none ∧
    (⟨true, ⟨true, true, true⟩, ⟨none, none, none⟩, none⟩ :
      GeminiStreamer).pending_main_content = none :=
  c9_pending_none_at_end (initGemini ⟨true, true, true⟩) [] ⟨none, none, none⟩
    ⟨true, ⟨true, true, true⟩, ⟨none, none, none⟩, none⟩ [] rfl

/-- The source loop never changes the capture options. -/
theorem pollLoop_options :
    ∀ (src : List SrcItem) (st : GeminiStreamer),
      (pollLoop st src).2.1.options = st.options := by
  intro src
  induction src with
  | nil => intro st; rfl
  | cons item rest ih =>
    intro st
    cases item with
    | evOpen => rfl
    | errStreamEnded => rfl
    | errOther => rfl
    | message d =>
      cases d with
      | fail => rfl
      | ok u =>
        rcases u with ⟨uc, ur, uu⟩
        rcases uc with _ | cc
        · rcases ur with _ | rr
          · exact (ih (stepUsage st uu)).trans (stepUsage_spec st uu).1
          · rcases rr with r | rtc
            · exact ((stepReasoning_spec (stepUsage st uu) r).1).trans (stepUsage_spec st uu).1
            · exact (ih (stepUsage st uu)).trans (stepUsage_spec st uu).1
        · rcases cc with t | tc
          · rcases ur with _ | rr
            · exact ((stepContent_spec (stepUsage st uu) t).1).trans (stepUsage_spec st uu).1
            · rcases rr with r | rtc
              · exact ((stepReasoning_spec (stepUsage st uu) r).1).trans (stepUsage_spec st uu).1
              · exact ((stepContent_spec (stepUsage st uu) t).1).trans (stepUsage_spec st uu).1
          · exact (stepUsage_spec st uu).1

/-- Usage gating through the source loop: with usage capture off and no
stored snapshot, the loop never stores one and any End event it produces
carries no snapshot. -/
theorem pollLoop_usage_gate :
    ∀ (src : List SrcItem) (st : GeminiStreamer),
      st.options.capture_usage = false → st.captured_data.usage = none →
      (pollLoop st src).2.1.captured_data.usage = none ∧
      ∀ e, (pollLoop st src).1 = PollResult.event (InterStreamEvent.endEvent e) →
        e.usage = none := by
  intro src
  induction src with
  | nil =>
    intro st hf hn
    refine ⟨rfl, ?_⟩
    intro e he
    have h1 : PollResult.event (InterStreamEvent.endEvent (endOf st)) =
        PollResult.event (InterStreamEvent.endEvent e) := he
    injection h1 with h2
    injection h2 with h3
    rw [← h3]
    exact hn
  | cons item rest ih =>
    intro st hf hn
    cases item with
    | evOpen =>
      refine ⟨hn, ?_⟩
      intro e he
      exact absurd (show PollResult.event InterStreamEvent.start =
        PollResult.event (InterStreamEvent.endEvent e) from he) (by simp)
    | errStreamEnded =>
      refine ⟨rfl, ?_⟩
      intro e he
      have h1 : PollResult.event (InterStreamEvent.endEvent (endOf st)) =
          PollResult.event (InterStreamEvent.endEvent e) := he
      injection h1 with h2
      injection h2 with h3
      rw [← h3]
      exact hn
    | errOther =>
      refine ⟨hn, ?_⟩
      intro e he
      exact absurd (show PollResult.error =
        PollResult.event (InterStreamEvent.endEvent e) from he) (by simp)
    | message d =>
      cases d with
      | fail =>
        refine ⟨hn, ?_⟩
        intro e he
        exact absurd (show PollResult.error =
          PollResult.event (InterStreamEvent.endEvent e) from he) (by simp)
      | ok u =>
        rcases u with ⟨uc, ur, uu⟩
        have hf1 : (stepUsage st uu).options.capture_usage = false := by
          rw [(stepUsage_spec st uu).1]; exact hf
        have hn1 : (stepUsage st uu).captured_data.usage = none :=
          ((stepUsage_spec st uu).2.2.2.2.2.1 hf).trans hn
        rcases uc with _ | cc
        · rcases ur with _ | rr
          · exact ih (stepUsage st uu) hf1 hn1
          · rcases rr with r | rtc
            · refine ⟨((stepReasoning_spec (stepUsage st uu) r).2.2.2.1).trans hn1, ?_⟩
              intro e he
              exact absurd (show PollResult.event (InterStreamEvent.reasoningChunk r) =
                PollResult.event (InterStreamEvent.endEvent e) from he) (by simp)
            · exact ih (stepUsage st uu) hf1 hn1
        · rcases cc with t | tc
          · rcases ur with _ | rr
            · refine ⟨((stepContent_spec (stepUsage st uu) t).2.2.2.1).trans hn1, ?_⟩
              intro e he
              exact absurd (show PollResult.event (InterStreamEvent.chunk t) =
                PollResult.event (InterStreamEvent.endEvent e) from he) (by simp)
            · rcases rr with r | rtc
              · refine ⟨((stepReasoning_spec (stepUsage st uu) r).2.2.2.1).trans hn1, ?_⟩
                intro e he
                exact absurd (show PollResult.event (InterStreamEvent.reasoningChunk r) =
                  PollResult.event (InterStreamEvent.endEvent e) from he) (by simp)
              · refine ⟨((stepContent_spec (stepUsage st uu) t).2.2.2.1).trans hn1, ?_⟩
                intro e he
                exact absurd (show PollResult.event (InterStreamEvent.chunk t) =
                  PollResult.event (InterStreamEvent.endEvent e) from he) (by simp)
          · refine ⟨hn1, ?_⟩
            intro e he
            exact absurd (show PollResult.event (InterStreamEvent.toolCall tc) =
              PollResult.event (InterStreamEvent.endEvent e) from he) (by simp)

/-- Content gating through the source loop: with content capture off and
nothing stored, the loop never stores content and any End event it produces
carries none. -/
theorem pollLoop_content_gate :
    ∀ (src : List SrcItem) (st : GeminiStreamer),
      st.options.capture_content = false → st.captured_data.content = none →
      (pollLoop st src).2.1.captured_data.content = none ∧
      ∀ e, (pollLoop st src).1 = PollResult.event (InterStreamEvent.endEvent e) →
        e.content = none := by
  intro src
  induction src with
  | nil =>
    intro st hf hn
    refine ⟨rfl, ?_⟩
    intro e he
    have h1 : PollResult.event (InterStreamEvent.endEvent (endOf st)) =
        PollResult.event (InterStreamEvent.endEvent e) := he
    injection h1 with h2
    injection h2 with h3
    rw [← h3]
    exact hn
  | cons item rest ih =>
    intro st hf hn
    cases item with
    | evOpen =>
      refine ⟨hn, ?_⟩
      intro e he
      exact absurd (show PollResult.event InterStreamEvent.start =
        PollResult.event (InterStreamEvent.endEvent e) from he) (by simp)
    | errStreamEnded =>
      refine ⟨rfl, ?_⟩
      intro e he
      have h1 : PollResult.event (InterStreamEvent.endEvent (endOf st)) =
          PollResult.event (InterStreamEvent.endEvent e) := he
      injection h1 with h2
      injection h2 with h3
      rw [← h3]
      exact hn
    | errOther =>
      refine ⟨hn, ?_⟩
      intro e he
      exact absurd (show PollResult.error =
        PollResult.event (InterStreamEvent.endEvent e) from he) (by simp)
    | message d =>
      cases d with
      | fail =>
        refine ⟨hn, ?_⟩
        intro e he
        exact absurd (show PollResult.error =
          PollResult.event (InterStreamEvent.endEvent e) from he) (by simp)
      | ok u =>
        rcases u with ⟨uc, ur, uu⟩
        have hf1 : (stepUsage st uu).options.capture_content = false := by
          rw [(stepUsage_spec st uu).1]; exact hf
        have hn1 : (stepUsage st uu).captured_data.content = none :=
          ((stepUsage_spec st uu).2.2.2.1).trans hn
        rcases uc with _ | cc
        · rcases ur with _ | rr
          · exact ih (stepUsage st uu) hf1 hn1
          · rcases rr with r | rtc
            · refine ⟨((stepReasoning_spec (stepUsage st uu) r).2.2.2.2.1).trans hn1, ?_⟩
              intro e he
              exact absurd (show PollResult.event (InterStreamEvent.reasoningChunk r) =
                PollResult.event (InterStreamEvent.endEvent e) from he) (by simp)
            · exact ih (stepUsage st uu) hf1 hn1
        · rcases cc with t | tc
          · rcases ur with _ | rr
            · refine ⟨((stepContent_spec (stepUsage st uu) t).2.2.2.2.2 hf1).trans hn1, ?_⟩
              intro e he
              exact absurd (show PollResult.event (InterStreamEvent.chunk t) =
                PollResult.event (InterStreamEvent.endEvent e) from he) (by simp)
            · rcases rr with r | rtc
              · refine ⟨((stepReasoning_spec (stepUsage st uu) r).2.2.2.2.1).trans hn1, ?_⟩
                intro e he
                exact absurd (show PollResult.event (InterStreamEvent.reasoningChunk r) =
                  PollResult.event (InterStreamEvent.endEvent e) from he) (by simp)
              · refine ⟨((stepContent_spec (stepUsage st uu) t).2.2.2.2.2 hf1).trans hn1, ?_⟩
                intro e he
                exact absurd (show PollResult.event (InterStreamEvent.chunk t) =
                  PollResult.event (InterStreamEvent.endEvent e) from he) (by simp)
          · refine ⟨hn1, ?_⟩
            intro e he
            exact absurd (show PollResult.event (InterStreamEvent.toolCall tc) =
              PollResult.event (InterStreamEvent.endEvent e) from he) (by simp)

/-- Reasoning gating through the source loop: with reasoning capture off
and nothing stored, the loop never stores reasoning and any End event it
produces carries none. -/
theorem pollLoop_reasoning_gate :
    ∀ (src : List SrcItem) (st : GeminiStreamer),
      st.options.capture_reasoning_content = false →
      st.captured_data.reasoning_content = none →
      (pollLoop st src).2.1.captured_data.reasoning_content = none ∧
      ∀ e, (pollLoop st src).1 = PollResult.event (InterStreamEvent.endEvent e) →
        e.reasoning_content = none := by
  intro src
  induction src with
  | nil =>
    intro st hf hn
    refine ⟨rfl, ?_⟩
    intro e he
    have h1 : PollResult.event (InterStreamEvent.endEvent (endOf st)) =
        PollResult.event (InterStreamEvent.endEvent e) := he
    injection h1 with h2
    injection h2 with h3
    rw [← h3]
    exact hn
  | cons item rest ih =>
    intro st hf hn
    cases item with
    | evOpen =>
      refine ⟨hn, ?_⟩
      intro e he
      exact absurd (show PollResult.event InterStreamEvent.start =
        PollResult.event (InterStreamEvent.endEvent e) from he) (by simp)
    | errStreamEnded =>
      refine ⟨rfl, ?_⟩
      intro e he
      have h1 : PollResult.event (InterStreamEvent.endEvent (endOf st)) =
          PollResult.event (InterStreamEvent.endEvent e) := he
      injection h1 with h2
      injection h2 with h3
      rw [← h3]
      exact hn
    | errOther =>
      refine ⟨hn, ?_⟩
      intro e he
      exact absurd (show PollResult.error =
        PollResult.event (InterStreamEvent.endEvent e) from he) (by simp)
    | message d =>
      cases d with
      | fail =>
        refine ⟨hn, ?_⟩
        intro e he
        exact absurd (show PollResult.error =
          PollResult.event (InterStreamEvent.endEvent e) from he) (by simp)
      | ok u =>
        rcases u with ⟨uc, ur, uu⟩
        have hf1 : (stepUsage st uu).options.capture_reasoning_content = false := by
          rw [(stepUsage_spec st uu).1]; exact hf
        have hn1 : (stepUsage st uu).captured_data.reasoning_content = none :=
          ((stepUsage_spec st uu).2.2.2.2.1).trans hn
        rcases uc with _ | cc
        · rcases ur with _ | rr
          · exact ih (stepUsage st uu) hf1 hn1
          · rcases rr with r | rtc
            · refine ⟨((stepReasoning_spec (stepUsage st uu) r).2.2.2.2.2 hf1).trans hn1, ?_⟩
              intro e he
              exact absurd (show PollResult.event (InterStreamEvent.reasoningChunk r) =
                PollResult.event (InterStreamEvent.endEvent e) from he) (by simp)
            · exact ih (stepUsage st uu) hf1 hn1
        · rcases cc with t | tc
          · rcases ur with _ | rr
            · refine ⟨((stepContent_spec (stepUsage st uu) t).2.2.2.2.1).trans hn1, ?_⟩
              intro e he
              exact absurd (show PollResult.event (InterStreamEvent.chunk t) =
                PollResult.event (InterStreamEvent.endEvent e) from he) (by simp)
            · rcases rr with r | rtc
              · refine ⟨((stepReasoning_spec (stepUsage st uu) r).2.2.2.2.2 hf1).trans hn1, ?_⟩
                intro e he
                exact absurd (show PollResult.event (InterStreamEvent.reasoningChunk r) =
                  PollResult.event (InterStreamEvent.endEvent e) from he) (by simp)
              · refine ⟨((stepContent_spec (stepUsage st uu) t).2.2.2.2.1).trans hn1, ?_⟩
                intro e he
                exact absurd (show PollResult.event (InterStreamEvent.chunk t) =
                  PollResult.event (InterStreamEvent.endEvent e) from he) (by simp)
          · refine ⟨hn1, ?_⟩
            intro e he
            exact absurd (show PollResult.event (InterStreamEvent.toolCall tc) =
              PollResult.event (InterStreamEvent.endEvent e) from he) (by simp)

/-- Gating through one `poll_next` call: options are preserved, and for
each field whose capture flag is off and whose aggregate is empty, the
aggregate stays empty and any End event produced carries none for it. -/
theorem pollNext_gating (st : GeminiStreamer) (src : List SrcItem) :
    (pollNext st src).2.1.options = st.options ∧
    (st.options.capture_usage = false → st.captured_data.usage = none →
      (pollNext st src).2.1.captured_data.usage = none ∧
      ∀ e, (pollNext st src).1 = PollResult.event (InterStreamEvent.endEvent e) →
        e.usage = none) ∧
    (st.options.capture_content = false → st.captured_data.content = none →
      (pollNext st src).2.1.captured_data.content = none ∧
      ∀ e, (pollNext st src).1 = PollResult.event (InterStreamEvent.endEvent e) →
        e.content = none) ∧
    (st.options.capture_reasoning_content = false →
      st.captured_data.reasoning_content = none →
      (pollNext st src).2.1.captured_data.reasoning_content = none ∧
      ∀ e, (pollNext st src).1 = PollResult.event (InterStreamEvent.endEvent e) →
        e.reasoning_content = none) := by
  rcases st with ⟨sd, sopts, scap, spend⟩
  cases sd with
  | true =>
    refine ⟨rfl, ?_, ?_, ?_⟩ <;>
      · intro hf hn
        refine ⟨hn, ?_⟩
        intro e he
        exact absurd (show PollResult.doneNone =
          PollResult.event (InterStreamEvent.endEvent e) from he) (by simp)
  | false =>
    cases spend with
    | some t =>
      refine ⟨(stepContent_spec ⟨false, sopts, scap, some t⟩ t).1, ?_, ?_, ?_⟩
      · intro hf hn
        refine ⟨((stepContent_spec ⟨false, sopts, scap, some t⟩ t).2.2.2.1).trans hn, ?_⟩
        intro e he
        exact absurd (show PollResult.event (InterStreamEvent.chunk t) =
          PollResult.event (InterStreamEvent.endEvent e) from he) (by simp)
      · intro hf hn
        refine ⟨((stepContent_spec ⟨false, sopts, scap, some t⟩ t).2.2.2.2.2 hf).trans hn, ?_⟩
        intro e he
        exact absurd (show PollResult.event (InterStreamEvent.chunk t) =
          PollResult.event (InterStreamEvent.endEvent e) from he) (by simp)
      · intro hf hn
        refine ⟨((stepContent_spec ⟨false, sopts, scap, some t⟩ t).2.2.2.2.1).trans hn, ?_⟩
        intro e he
        exact absurd (show PollResult.event (InterStreamEvent.chunk t) =
          PollResult.event (InterStreamEvent.endEvent e) from he) (by simp)
    | none =>
      exact ⟨pollLoop_options src ⟨false, sopts, scap, none⟩,
             pollLoop_usage_gate src ⟨false, sopts, scap, none⟩,
             pollLoop_content_gate src ⟨false, sopts, scap, none⟩,
             pollLoop_reasoning_gate src ⟨false, sopts, scap, none⟩⟩

/-- Gating across a whole drive: starting from a state whose gated
aggregates are empty, any End event observed in any number of pulls carries
none for every field whose capture flag is off. -/
theorem geminiDrive_gating :
    ∀ (n : Nat) (st : GeminiStreamer) (src : List SrcItem) (e : InterStreamEnd),
      PollResult.event (InterStreamEvent.endEvent e) ∈ geminiDrive st src n →
      (st.options.capture_usage = false → st.captured_data.usage = none →
        e.usage = none) ∧
      (st.options.capture_content = false → st.captured_data.content = none →
        e.content = none) ∧
      (st.options.capture_reasoning_content = false →
        st.captured_data.reasoning_content = none → e.reasoning_content = none) := by
  intro n
  induction n with
  | zero =>
    intro st src e he
    exact absurd he (by simp [geminiDrive])
  | succ n ih =>
    intro st src e he
    have hg := pollNext_gating st src
    have he1 : PollResult.event (InterStreamEvent.endEvent e) ∈
        (pollNext st src).1 :: geminiDrive (pollNext st src).2.1 (pollNext st src).2.2 n := he
    rcases List.mem_cons.mp he1 with he2 | he2
    · exact ⟨fun hf hn => (hg.2.1 hf hn).2 e he2.symm,
             fun hf hn => (hg.2.2.1 hf hn).2 e he2.symm,
             fun hf hn => (hg.2.2.2 hf hn).2 e he2.symm⟩
    · have ihh := ih (pollNext st src).2.1 (pollNext st src).2.2 e he2
      refine ⟨fun hf hn => ihh.1 ?_ ?_, fun hf hn => ihh.2.1 ?_ ?_,
              fun hf hn => ihh.2.2 ?_ ?_⟩
      · rw [hg.1]; exact hf
      · exact (hg.2.1 hf hn).1
      · rw [hg.1]; exact hf
      · exact (hg.2.2.1 hf hn).1
      · rw [hg.1]; exact hf
      · exact (hg.2.2.2 hf hn).1

/-- Claim C7 (amended): capture gating holds for the Gemini streamer — for
a stream started with a capture flag disabled, the corresponding field of
every End event it ever emits is absent.  (It does not hold for every
Streamer implementation: the LlamaCpp streamer has no capture options and
populates the content field unconditionally.) -/
theorem c7_gemini_capture_gating (opts : StreamerOptions) (src : List SrcItem)
    (n : Nat) (e : InterStreamEnd)
    (h : PollResult.event (InterStreamEvent.endEvent e) ∈
      geminiDrive (initGemini opts) src n) :
    (opts.capture_usage = false → e.usage = none) ∧
    (opts.capture_content = false → e.content = none) ∧
    (opts.capture_reasoning_content = false → e.reasoning_content = none) := by
  have hg := geminiDrive_gating n (initGemini opts) src e h
  exact ⟨fun hf => hg.1 hf rfl, fun hf => hg.2.1 hf rfl, fun hf => hg.2.2 hf rfl⟩

/-- Witness for the amended C7: a stream with all captures disabled over an
exhausted source emits End with every field absent. -/
theorem c7_gemini_capture_gating_witness :
    ((⟨false, false, false⟩ : StreamerOptions).capture_usage = false →
      (⟨none, none, none⟩ : InterStreamEnd).usage = none) ∧
    ((⟨false, false, false⟩ : StreamerOptions).capture_content = false →
      (⟨none, none, none⟩ : InterStreamEnd).content = none) ∧
    ((⟨false, false, false⟩ : StreamerOptions).capture_reasoning_content = false →
      (⟨none, none, none⟩ : InterStreamEnd).reasoning_content = none) :=
  c7_gemini_capture_gating ⟨false, false, false⟩ [] 1 ⟨none, none, none⟩ (by decide)
